import Mathlib

set_option maxRecDepth 8000

/-!
Shallow embedding of the FactorioAccess release tool (src/fa_release_tool.py).

Paths are modelled with POSIX conventions (os.sep = "/"), matching the
posixpath implementations of join, normpath, abspath, basename and splitext
that the tool relies on.  Manifest (info.json) field values used by the tool
are strings, so JSON objects are modelled by their optional string-valued
name and version fields, plus a marker for non-object documents.
-/

namespace FAReleaseTool

/-- Model of os.path.isabs for POSIX: the path starts with a slash. -/
def isabs (p : String) : Bool := p.data.head? == some '/'

/-- Model of the endswith slash test used by the tool (single separator). -/
def endsWithSep (s : String) : Bool := s.data.reverse.head? == some '/'

/-- Model of posixpath.join for two components: an absolute second component
replaces the first; otherwise a separator is inserted unless the first is
empty or already ends with one. -/
def pjoin (a b : String) : String :=
  if isabs b then b
  else if a.data.isEmpty || endsWithSep a then a ++ b
  else a ++ "/" ++ b

/-- Split a character list on the slash character, as str.split does. -/
def splitSlash : List Char → List (List Char)
  | [] => [[]]
  | c :: rest =>
    if c = '/' then [] :: splitSlash rest
    else
      match splitSlash rest with
      | [] => [[c]]
      | h :: t => (c :: h) :: t

/-- Component normalization loop of posixpath.normpath: drops empty and dot
components, resolves dot-dot against the accumulated stack, keeps leading
dot-dot components of relative paths, and drops dot-dot at the root. -/
def normParts (root : Bool) : List (List Char) → List (List Char) → List (List Char)
  | [], acc => acc.reverse
  | c :: rest, acc =>
    if c = [] ∨ c = ['.'] then normParts root rest acc
    else if c ≠ ['.', '.'] ∨ (¬root ∧ acc = []) ∨ acc.head? = some ['.', '.'] then
      normParts root rest (c :: acc)
    else
      match acc with
      | [] => normParts root rest []
      | _ :: tl => normParts root rest tl

/-- Number of leading slashes of a path. -/
def leadingSlashCount (p : String) : Nat :=
  (p.data.takeWhile (fun c => c = '/')).length

/-- Model of posixpath.normpath: empty input becomes a dot, exactly two
initial slashes are preserved, any other number collapses to one, and the
components are normalized by normParts. -/
def normpath (p : String) : String :=
  if p.data.isEmpty then "."
  else
    let c := leadingSlashCount p
    let slashes : Nat := if c = 2 then 2 else if c ≥ 1 then 1 else 0
    let nc := normParts (slashes ≠ 0) (splitSlash p.data) []
    let res := String.mk (List.replicate slashes '/') ++ String.mk (List.intercalate ['/'] nc)
    if res.data.isEmpty then "." else res

/-- Model of posixpath.abspath with the working directory passed explicitly:
relative paths are joined onto the working directory, then normalized. -/
def abspath (cwd p : String) : String :=
  if isabs p then normpath p else normpath (pjoin cwd p)

/-- Model of posixpath.basename: everything after the last slash. -/
def basename (p : String) : String :=
  String.mk ((p.data.reverse.takeWhile (fun c => c ≠ '/')).reverse)

/-- Model of the root part of os.path.splitext on a bare file name (no
separators): cut at the last dot unless every character before it is a dot. -/
def splitextRoot (b : String) : String :=
  match b.data.reverse.findIdx? (fun c => c = '.') with
  | none => b
  | some j =>
    let i := b.data.length - 1 - j
    if (b.data.take i).all (fun c => c = '.') then b else String.mk (b.data.take i)

/-- Model of str.lower restricted to ASCII letters (the URLs and module names
the tool compares are ASCII). -/
def strLower (s : String) : String := String.mk (s.data.map Char.toLower)

/-- Model of str.rstrip with a slash argument: drop all trailing slashes. -/
def rstripSlash (s : String) : String :=
  String.mk ((s.data.reverse.dropWhile (fun c => c = '/')).reverse)

/-- Model of replacing every dot by an underscore, as the single-character
str.replace call in build_release_zip does. -/
def replaceDots (s : String) : String :=
  String.mk (s.data.map (fun c => if c = '.' then '_' else c))

example : normpath "/base/dir/../../etc" = "/etc" := by decide
example : normpath "a/b/" = "a/b" := by decide
example : pjoin "/x" "y/" = "/x/y/" := by decide
example : basename "src/Foo_1.0.0.zip" = "Foo_1.0.0.zip" := by decide
example : splitextRoot "Foo_1.0.0.zip" = "Foo_1.0.0" := by decide
example : splitextRoot ".bashrc" = ".bashrc" := by decide
example : abspath "/cwd" "m" = "/cwd/m" := by decide

/-- The info.json object, modelled by its optional name and version fields;
other fields are ignored by the tool. A missing field is none. -/
structure InfoObj where
  name : Option String
  version : Option String
deriving DecidableEq

/-- A parsed JSON document: either an object (restricted to the fields the
tool inspects) or any non-object value. -/
inductive JsonVal where
  | obj (o : InfoObj)
  | nonObj
deriving DecidableEq

/-- Outcome of reading and parsing a JSON file or archive entry. -/
inductive JsonOutcome where
  | parseError
  | value (v : JsonVal)
deriving DecidableEq

/-- What a filesystem path refers to, as load_info_json distinguishes it:
a directory (with the optional info.json file directly inside it), a zip
archive (with its named entries), or anything else. -/
inductive FsNode where
  | dir (infoFile : Option JsonOutcome)
  | zipfile (entries : List (String × JsonOutcome))
  | other
deriving DecidableEq

/-- Hard errors raised by load_info_json (all surface as ValueError). -/
inductive LoadErr where
  | parseFailure
  | notDirOrZip
  | notObject
  | missingKeys
deriving DecidableEq

/-- Result of load_info_json: ok none models the Python function returning
None (manifest absent), err models a raised exception. -/
inductive LoadResult where
  | ok (info : Option InfoObj)
  | err (e : LoadErr)
deriving DecidableEq

/-- Raw read stage of load_info_json, before the object and key checks. -/
inductive RawResult where
  | ok (v : Option JsonVal)
  | err (e : LoadErr)
deriving DecidableEq

/-- The archive entry load_info_json looks for: the archive base name
(extension stripped) followed by /info.json. -/
def info_json_entry (path : String) : String :=
  splitextRoot (basename path) ++ "/info.json"

/-- First stage of load_info_json (fa_release_tool.py lines 31-53): read the
raw JSON document from a directory or zip archive. A missing file or missing
archive entry yields ok none; a parse failure or an unsupported path kind is
an error. -/
def read_raw_info (path : String) (node : FsNode) : RawResult :=
  match node with
  | .dir none => .ok none
  | .dir (some .parseError) => .err .parseFailure
  | .dir (some (.value v)) => .ok (some v)
  | .zipfile entries =>
    match entries.lookup (info_json_entry path) with
    | none => .ok none
    | some .parseError => .err .parseFailure
    | some (.value v) => .ok (some v)
  | .other => .err .notDirOrZip

/-- Model of load_info_json (fa_release_tool.py lines 25-60): raw read, then
the object check and the required-key check on name and version. -/
def load_info_json (path : String) (node : FsNode) : LoadResult :=
  match read_raw_info path node with
  | .err e => .err e
  | .ok none => .ok none
  | .ok (some .nonObj) => .err .notObject
  | .ok (some (.obj o)) =>
    if o.name = none ∨ o.version = none then .err .missingKeys else .ok (some o)

/-- Result of validate_mod: the function either returns a boolean or raises
FileNotFoundError when the manifest is absent. -/
inductive VResult where
  | ret (b : Bool)
  | raisesNotFound
deriving DecidableEq

/-- Model of validate_mod (fa_release_tool.py lines 62-74). The optional info
argument mirrors the Python default of None: when none, the manifest is
loaded from the path, and only exceptions of that load are caught (returning
false). An absent manifest raises FileNotFoundError; otherwise the result is
the case-sensitive comparison of the manifest name with the expected name. -/
def validate_mod (mod_name path : String) (node : FsNode)
    (info : Option InfoObj := none) : VResult :=
  let loaded : LoadResult :=
    match info with
    | some o => .ok (some o)
    | none => load_info_json path node
  match loaded with
  | .err _ => .ret false
  | .ok none => .raisesNotFound
  | .ok (some o) => .ret (o.name == some mod_name)

example : load_info_json "m" (.dir none) = .ok none := by decide
example : validate_mod "A" "m" (.dir none) = .raisesNotFound := by decide
example :
    validate_mod "A" "m" (.dir (some (.value (.obj ⟨some "A", some "1.0"⟩)))) =
      .ret true := by decide

/-- A module record from the YAML config. Optional keys are none when the
key is missing from the mapping. The global_default_dest field models the
transient key stashed onto the mapping by cmd_fetch before resolution. -/
structure Mod where
  name : String
  dest : Option String := none
  repo : Option String := none
  branch : Option String := none
  commit : Option String := none
  bundle_zip : Option Bool := none
  update : Option Bool := none
  beta : Option Bool := none
  global_default_dest : Option String := none
deriving DecidableEq

/-- Python truthiness of an optional string: present and non-empty. -/
def truthy : Option String → Bool
  | none => false
  | some s => !s.data.isEmpty

/-- Base destination of resolve_mod_dest (fa_release_tool.py lines 100-105):
the global destination when truthy, else the stashed config default when the
key is present, else the working directory. -/
def resolve_base (cwd : String) (mod : Mod) (global_dest : Option String) : String :=
  if truthy global_dest then abspath cwd (global_dest.getD "")
  else
    match mod.global_default_dest with
    | some g => abspath cwd g
    | none => cwd

/-- Result of resolve_mod_dest: a resolved path, or the raised ValueError. -/
inductive ResolveResult where
  | ok (path : String)
  | configError (msg : String)
deriving DecidableEq

/-- Model of resolve_mod_dest (fa_release_tool.py lines 86-122). A truthy
per-module dest must not be absolute; a trailing separator makes it a
directory with the module name appended; otherwise it is joined verbatim.
Without a per-module dest, the module name is joined onto the base when one
was established, else resolved against the working directory. -/
def resolve_mod_dest (cwd : String) (mod : Mod) (global_dest : Option String) :
    ResolveResult :=
  let base := resolve_base cwd mod global_dest
  if truthy mod.dest then
    let d := mod.dest.getD ""
    if isabs d then .configError ("Per-module dest should not be absolute: " ++ d)
    else if endsWithSep d then .ok (normpath (pjoin (pjoin base d) mod.name))
    else .ok (normpath (pjoin base d))
  else if truthy global_dest || mod.global_default_dest.isSome then
    .ok (normpath (pjoin base mod.name))
  else .ok (abspath cwd mod.name)

/-- Model of find_mod (fa_release_tool.py lines 163-168): first module whose
name equals the query case-insensitively. -/
def find_mod : List Mod → String → Option Mod
  | [], _ => none
  | m :: rest, name =>
    if strLower m.name == strLower name then some m else find_mod rest name

/-- URL normalization nested in repo_matches_expected_url (fa_release_tool.py
lines 129-133): lowercase, strip all trailing slashes, then strip one
trailing .git suffix. -/
def normalize (url : String) : String :=
  let u := rstripSlash (strLower url)
  if u.data.reverse.take 4 = ['t', 'i', 'g', '.'] then
    String.mk (u.data.take (u.data.length - 4))
  else u

/-- Model of repo_matches_expected_url (fa_release_tool.py lines 124-139).
The repository is modelled by its remotes, each a list of URLs. -/
def repo_matches_expected_url (remotes : List (List String)) (expected : String) :
    Bool :=
  remotes.any (fun remote => remote.any (fun u => normalize u == normalize expected))

/-- An archive candidate found by the glob in find_mod_assets_or_sources:
its filesystem path and what load_info_json sees there. -/
structure ZipCandidate where
  path : String
  node : FsNode
deriving DecidableEq

/-- Result of the archive branch of find_mod_assets_or_sources for one
module: the unique validated zip path, or one of the two fatal errors. -/
inductive DiscResult where
  | ok (path : String)
  | missingAsset (modname : String)
  | ambiguousAsset (modname : String) (names : List String)
deriving DecidableEq

/-- One iteration of the candidate filter in find_mod_assets_or_sources
(fa_release_tool.py lines 247-254): load the manifest, then validate_mod
with the loaded manifest; any exception (load failure, or the
FileNotFoundError validate_mod raises on an absent manifest) skips the
candidate, as does a validation failure. -/
def zip_candidate_valid (modname : String) (c : ZipCandidate) : Bool :=
  match load_info_json c.path c.node with
  | .err _ => false
  | .ok info =>
    match validate_mod modname c.path c.node info with
    | .ret b => b
    | .raisesNotFound => false

/-- Archive branch of find_mod_assets_or_sources for one module
(fa_release_tool.py lines 241-260): keep the valid candidates; zero is a
missing-asset error, more than one is an ambiguous-asset error listing the
base names of all survivors, exactly one is the result. -/
def find_mod_zip_asset (modname : String) (cands : List ZipCandidate) : DiscResult :=
  let valid_zips := cands.filter (zip_candidate_valid modname)
  if valid_zips.length = 0 then .missingAsset modname
  else if valid_zips.length > 1 then
    .ambiguousAsset modname (valid_zips.map (fun c => basename c.path))
  else
    match valid_zips with
    | c :: _ => .ok c.path
    | [] => .missingAsset modname

/-- The zip_name local computed at fa_release_tool.py line 323: bundle name,
underscore, version verbatim, extension. It is never used afterwards. -/
def build_release_zip_zip_name (bundle_name bundle_version : String) : String :=
  bundle_name ++ "_" ++ bundle_version ++ ".zip"

/-- The bundle_folder local of build_release_zip (fa_release_tool.py line
322): bundle name, underscore, version with dots replaced by underscores. -/
def bundle_folder_name (bundle_name bundle_version : String) : String :=
  bundle_name ++ "_" ++ replaceDots bundle_version

/-- Path of the archive produced by build_release_zip (fa_release_tool.py
lines 345-351): shutil.make_archive is called with base_name joined from the
output directory and the bundle folder and with the zip format, so it
returns that base name with the zip extension appended. -/
def build_release_zip_path (default_dest bundle_name bundle_version : String) :
    String :=
  pjoin default_dest (bundle_folder_name bundle_name bundle_version) ++ ".zip"

example :
    basename (build_release_zip_path "out" "FactorioAccess" "1.2.3") =
      "FactorioAccess_1_2_3.zip" := by decide
example : find_mod [{name := "Foo"}, {name := "Bar"}] "bar" = some {name := "Bar"} := by
  decide
example : repo_matches_expected_url [["https://X.example/Repo.git/"]]
    "https://x.example/repo" = true := by decide
example :
    find_mod_zip_asset "Foo"
      [⟨"src/Foo_1.0.0.zip",
        .zipfile [("Foo_1.0.0/info.json", .value (.obj ⟨some "Foo", some "1.0.0"⟩))]⟩] =
      .ok "src/Foo_1.0.0.zip" := by decide
example : resolve_mod_dest "/cwd" {name := "m"} none = .ok "/cwd/m" := by decide
example : resolve_mod_dest "/cwd" {name := "m", dest := some "../../etc"}
    (some "/base/dir") = .ok "/etc" := by decide

/-! Helper lemmas about the string and list primitives. -/

theorem str_ext {s t : String} (h : s.data = t.data) : s = t := by
  cases s; cases t; exact congrArg String.mk h

theorem str_data_append (s t : String) : (s ++ t).data = s.data ++ t.data := rfl

theorem string_mk_data (s : String) : String.mk s.data = s := rfl

theorem string_of_data_nil {s : String} (h : s.data = []) : s = "" :=
  str_ext (by simp [h])

theorem data_ne_nil_of_ne_empty {s : String} (h : s ≠ "") : s.data.isEmpty = false := by
  cases hd : s.data with
  | nil => exact absurd (string_of_data_nil hd) h
  | cons c t => simp

theorem takeWhile_all_eq {p : Char → Bool} :
    ∀ l : List Char, (∀ x ∈ l, p x = true) → l.takeWhile p = l
  | [], _ => rfl
  | a :: t, h => by
    have ha : p a = true := h a (List.mem_cons_self a t)
    have ht := takeWhile_all_eq t (fun x hx => h x (List.mem_cons_of_mem a hx))
    simp [List.takeWhile, ha, ht]

theorem takeWhile_append_stop {p : Char → Bool} (l1 : List Char) (c : Char)
    (l2 : List Char) (h1 : ∀ x ∈ l1, p x = true) (hc : p c = false) :
    (l1 ++ c :: l2).takeWhile p = l1 := by
  induction l1 with
  | nil => simp [List.takeWhile, hc]
  | cons a t ih =>
    have ha : p a = true := h1 a (List.mem_cons_self a t)
    have ht := ih (fun x hx => h1 x (List.mem_cons_of_mem a hx))
    simp [List.takeWhile, ha, ht]

/-! Claim C4. -/

/-- C4: for every module whose per-module dest override is an absolute path,
resolve_mod_dest raises the configuration error, for every working
directory, every global destination override and every stashed config
default destination. -/
theorem absolute_dest_override_config_error (cwd : String) (m : Mod)
    (gd : Option String) (d : String) (hd : m.dest = some d)
    (habs : isabs d = true) :
    resolve_mod_dest cwd m gd =
      .configError ("Per-module dest should not be absolute: " ++ d) := by
  have hne : d.data.isEmpty = false := by
    cases h : d.data with
    | nil => rw [isabs, h] at habs; simp at habs
    | cons c t => simp
  simp [resolve_mod_dest, hd, truthy, hne, habs]

/-- C4 witness: a concrete absolute override is rejected under a global
destination override. -/
theorem absolute_dest_override_config_error_inst :
    resolve_mod_dest "/c" {name := "m", dest := some "/abs"} (some "/g") =
      .configError ("Per-module dest should not be absolute: " ++ "/abs") :=
  absolute_dest_override_config_error "/c" _ (some "/g") "/abs" rfl (by decide)

/-! Claim C7. -/

/-- C7: for every non-absolute, truthy per-module dest override, the resolver
does not fail; when the override ends in a path separator the module name is
appended after joining onto the base, and otherwise the override is joined
onto the base verbatim with no module name appended. -/
theorem dest_override_trailing_sep_behavior (cwd : String) (m : Mod)
    (gd : Option String) (d : String) (hd : m.dest = some d) (hne : d ≠ "")
    (hrel : isabs d = false) :
    (endsWithSep d = true →
      resolve_mod_dest cwd m gd =
        .ok (normpath (pjoin (pjoin (resolve_base cwd m gd) d) m.name))) ∧
    (endsWithSep d = false →
      resolve_mod_dest cwd m gd =
        .ok (normpath (pjoin (resolve_base cwd m gd) d))) := by
  have hne' : d.data.isEmpty = false := data_ne_nil_of_ne_empty hne
  constructor <;> intro hsep <;> simp [resolve_mod_dest, hd, truthy, hne', hrel, hsep]

/-- C7 witness: both branches at concrete inputs, a trailing-separator
override that gets the module name appended and a bare override used
verbatim. -/
theorem dest_override_trailing_sep_behavior_inst :
    resolve_mod_dest "/c" {name := "m", dest := some "sub/"} none =
      .ok (normpath (pjoin (pjoin (resolve_base "/c" {name := "m", dest := some "sub/"} none)
        "sub/") "m")) ∧
    resolve_mod_dest "/c" {name := "m", dest := some "sub"} none =
      .ok (normpath (pjoin (resolve_base "/c" {name := "m", dest := some "sub"} none) "sub")) :=
  ⟨(dest_override_trailing_sep_behavior "/c" {name := "m", dest := some "sub/"} none "sub/"
      rfl (by decide) (by decide)).1 (by decide),
   (dest_override_trailing_sep_behavior "/c" {name := "m", dest := some "sub"} none "sub"
      rfl (by decide) (by decide)).2 (by decide)⟩

/-! Claim C8. -/

/-- C8: for every module with no truthy per-module dest override and a
module name that is not an absolute path, the resolver joins the module name
onto the base when a base is established by a truthy global destination or a
stashed config default, and otherwise resolves the module name against the
working directory; and the result depends only on the name, dest and stashed
default fields of the module record. -/
theorem unset_dest_override_resolution (cwd : String) (m : Mod) (gd : Option String)
    (hd : truthy m.dest = false) (hname : isabs m.name = false) :
    ((truthy gd = true ∨ m.global_default_dest.isSome = true) →
      resolve_mod_dest cwd m gd =
        .ok (normpath (pjoin (resolve_base cwd m gd) m.name))) ∧
    ((truthy gd = false ∧ m.global_default_dest = none) →
      resolve_mod_dest cwd m gd = .ok (normpath (pjoin cwd m.name))) ∧
    (∀ m' : Mod, m'.name = m.name → m'.dest = m.dest →
      m'.global_default_dest = m.global_default_dest →
      resolve_mod_dest cwd m' gd = resolve_mod_dest cwd m gd) := by
  refine ⟨?_, ?_, ?_⟩
  · rintro (h | h) <;> simp [resolve_mod_dest, hd, h]
  · rintro ⟨h1, h2⟩
    simp [resolve_mod_dest, hd, h1, h2, abspath, hname]
  · intro m' h1 h2 h3
    simp [resolve_mod_dest, resolve_base, h1, h2, h3]

/-- C8 witness: joined onto the stashed config default when present, and
onto the working directory when no base is established, with an unrelated
attribute present to show it does not matter. -/
theorem unset_dest_override_resolution_inst :
    resolve_mod_dest "/cwd" {name := "m", global_default_dest := some "/base", branch := some "main"} none =
      .ok (normpath (pjoin (resolve_base "/cwd" {name := "m", global_default_dest := some "/base", branch := some "main"} none) "m")) ∧
    resolve_mod_dest "/cwd" {name := "m", branch := some "main"} none =
      .ok (normpath (pjoin "/cwd" "m")) :=
  ⟨(unset_dest_override_resolution "/cwd" {name := "m", global_default_dest := some "/base", branch := some "main"} none rfl
      (by decide)).1 (Or.inr rfl),
   (unset_dest_override_resolution "/cwd" {name := "m", branch := some "main"} none rfl
      (by decide)).2.1 ⟨rfl, rfl⟩⟩

/-! Claim C9. -/

/-- C9: for every relative truthy per-module dest override, including ones
with parent-directory segments, the resolver never takes the error branch;
and the concrete override dot-dot dot-dot etc under base /base/dir resolves
to /etc, which lies outside the base directory. -/
theorem relative_dest_override_never_rejected :
    (∀ (cwd : String) (m : Mod) (gd : Option String) (d : String),
      m.dest = some d → d ≠ "" → isabs d = false →
      ∃ p, resolve_mod_dest cwd m gd = .ok p) ∧
    resolve_mod_dest "/cwd" {name := "m", dest := some "../../etc"}
      (some "/base/dir") = .ok "/etc" ∧
    "/base/dir".data.isPrefixOf "/etc".data = false := by
  refine ⟨?_, by decide, by decide⟩
  intro cwd m gd d hd hne hrel
  have hne' : d.data.isEmpty = false := data_ne_nil_of_ne_empty hne
  simp only [resolve_mod_dest, hd, truthy, hne', hrel, Bool.not_false, if_true,
    Option.getD_some, Bool.false_eq_true, if_false]
  split <;> exact ⟨_, rfl⟩

/-- C9 witness: the general part applied at a concrete traversal override. -/
theorem relative_dest_override_never_rejected_inst :
    ∃ p, resolve_mod_dest "/cwd" {name := "x", dest := some "../up"} none = .ok p :=
  relative_dest_override_never_rejected.1 "/cwd" {name := "x", dest := some "../up"}
    none "../up" rfl (by decide) (by decide)

/-! Claim C2. -/

/-- C2 counterexample: on an absent manifest, validate_mod raises
FileNotFoundError instead of returning false, refuting the claim that every
non-matching case returns false rather than raising. -/
theorem validate_mod_absent_manifest_raises :
    validate_mod "FactorioAccess" "mods/FactorioAccess" (.dir none) = .raisesNotFound ∧
    validate_mod "FactorioAccess" "mods/FactorioAccess" (.dir none) ≠ .ret false := by
  decide

/-- C2 amended: validate_mod returns true exactly when the manifest loads as
present and its name equals the expected name case-sensitively; a present
manifest with a mismatched name returns false; a failed manifest load is
caught and returns false; but an absent manifest raises FileNotFoundError
instead of returning false. -/
theorem validate_mod_result_characterization (mod_name path : String) (node : FsNode) :
    (validate_mod mod_name path node = .ret true ↔
      ∃ o, load_info_json path node = .ok (some o) ∧ o.name = some mod_name) ∧
    (load_info_json path node = .ok none →
      validate_mod mod_name path node = .raisesNotFound) ∧
    (∀ o, load_info_json path node = .ok (some o) → o.name ≠ some mod_name →
      validate_mod mod_name path node = .ret false) ∧
    (∀ e, load_info_json path node = .err e →
      validate_mod mod_name path node = .ret false) := by
  refine ⟨?_, ?_, ?_, ?_⟩
  · cases h : load_info_json path node with
    | err e => simp [validate_mod, h]
    | ok info => cases info <;> simp [validate_mod, h]
  · intro h; simp [validate_mod, h]
  · intro o h hno; simp [validate_mod, h, hno]
  · intro e h; simp [validate_mod, h]

/-- C2 witness: the amended theorem applied at a present manifest with a
mismatched name and at a parse failure, both returning false. -/
theorem validate_mod_result_characterization_inst :
    validate_mod "A" "p" (.dir (some (.value (.obj ⟨some "B", some "1.0"⟩)))) =
      .ret false ∧
    validate_mod "A" "p" (.dir (some .parseError)) = .ret false :=
  ⟨(validate_mod_result_characterization "A" "p"
      (.dir (some (.value (.obj ⟨some "B", some "1.0"⟩))))).2.2.1
      ⟨some "B", some "1.0"⟩ (by decide) (by decide),
   (validate_mod_result_characterization "A" "p"
      (.dir (some .parseError))).2.2.2 .parseFailure rfl⟩

/-! Claim C5. -/

/-- C5: load_info_json distinguishes absent from hard errors. A directory
without the manifest file yields absent; an archive whose entry at the
archive base name followed by /info.json is missing yields absent; a
non-object document, a document missing the name or version key, and a parse
failure are all hard errors, never absent. -/
theorem load_info_json_absent_vs_hard_error (path : String)
    (entries : List (String × JsonOutcome)) (node : FsNode) :
    load_info_json path (.dir none) = .ok none ∧
    (entries.lookup (info_json_entry path) = none →
      load_info_json path (.zipfile entries) = .ok none) ∧
    (read_raw_info path node = .ok (some .nonObj) →
      load_info_json path node = .err .notObject) ∧
    (∀ o, read_raw_info path node = .ok (some (.obj o)) →
      o.name = none ∨ o.version = none →
      load_info_json path node = .err .missingKeys) ∧
    (read_raw_info path node = .err .parseFailure →
      load_info_json path node = .err .parseFailure) := by
  refine ⟨rfl, ?_, ?_, ?_, ?_⟩
  · intro h; simp [load_info_json, read_raw_info, h]
  · intro h; simp [load_info_json, h]
  · intro o h hk; simp [load_info_json, h, hk]
  · intro h; simp [load_info_json, h]

/-- C5 witness: all branches at concrete inputs. -/
theorem load_info_json_absent_vs_hard_error_inst :
    load_info_json "mods/Foo_1.0.0.zip" (.zipfile [("other.txt", .value .nonObj)]) =
      .ok none ∧
    load_info_json "m" (.dir (some (.value .nonObj))) = .err .notObject ∧
    load_info_json "m" (.dir (some (.value (.obj ⟨some "Foo", none⟩)))) =
      .err .missingKeys ∧
    load_info_json "m" (.dir (some .parseError)) = .err .parseFailure :=
  ⟨(load_info_json_absent_vs_hard_error "mods/Foo_1.0.0.zip"
      [("other.txt", .value .nonObj)] .other).2.1 (by decide),
   (load_info_json_absent_vs_hard_error "m" [] (.dir (some (.value .nonObj)))).2.2.1 rfl,
   (load_info_json_absent_vs_hard_error "m" []
      (.dir (some (.value (.obj ⟨some "Foo", none⟩))))).2.2.2.1 ⟨some "Foo", none⟩ rfl
      (Or.inr rfl),
   (load_info_json_absent_vs_hard_error "m" [] (.dir (some .parseError))).2.2.2.2 rfl⟩

/-! Claim C6. -/

/-- C6: the remote identity check succeeds exactly when some URL of some
remote equals the expected URL under the normalization that lowercases,
strips trailing slashes and strips a trailing git extension; with no such
URL it reports a mismatch. -/
theorem repo_remote_match_iff_normalized (remotes : List (List String))
    (expected : String) :
    (repo_matches_expected_url remotes expected = true ↔
      ∃ r ∈ remotes, ∃ u ∈ r, normalize u = normalize expected) ∧
    (repo_matches_expected_url remotes expected = false ↔
      ∀ r ∈ remotes, ∀ u ∈ r, normalize u ≠ normalize expected) := by
  constructor
  · simp [repo_matches_expected_url, List.any_eq_true]
  · simp [repo_matches_expected_url, List.any_eq_false]

/-! Claim C10. -/

/-- C10: find_mod returns the first module whose declared name equals the
query under case folding, and returns none exactly when no module name
matches under case folding. -/
theorem find_mod_case_insensitive_first_match (ms : List Mod) (q : String) :
    (∀ m, find_mod ms q = some m →
      strLower m.name = strLower q ∧
      ∃ pre suf, ms = pre ++ m :: suf ∧ ∀ x ∈ pre, strLower x.name ≠ strLower q) ∧
    (find_mod ms q = none ↔ ∀ m ∈ ms, strLower m.name ≠ strLower q) := by
  induction ms with
  | nil => simp [find_mod]
  | cons a rest ih =>
    by_cases h : strLower a.name = strLower q
    · have hb : (strLower a.name == strLower q) = true := beq_iff_eq.mpr h
      constructor
      · intro m hm
        rw [find_mod, if_pos hb] at hm
        cases hm
        exact ⟨h, [], rest, rfl, by simp⟩
      · rw [find_mod, if_pos hb]
        constructor
        · intro hnone; exact absurd hnone (by simp)
        · intro hall; exact absurd h (hall a (List.mem_cons_self a rest))
    · have hb : (strLower a.name == strLower q) = false := by
        simpa using h
      have hif : find_mod (a :: rest) q = find_mod rest q := by
        rw [find_mod, if_neg (by simp [hb])]
      constructor
      · intro m hm
        rw [hif] at hm
        obtain ⟨h1, pre, suf, h2, h3⟩ := ih.1 m hm
        refine ⟨h1, a :: pre, suf, by simp [h2], ?_⟩
        intro x hx
        rcases List.mem_cons.mp hx with hxa | hxp
        · rw [hxa]; exact h
        · exact h3 x hxp
      · rw [hif, ih.2]
        constructor
        · intro hall m hm
          rcases List.mem_cons.mp hm with rfl | hm'
          · exact h
          · exact hall m hm'
        · intro hall m hm
          exact hall m (List.mem_cons_of_mem a hm)

/-- C10 witness: the first case-folded match is returned even when a later
module matches too, and manifest-style exact names are not required. -/
theorem find_mod_case_insensitive_first_match_inst :
    strLower (Mod.mk "Foo" none none none none none none none none).name =
      strLower "FOO" ∧
    ∃ pre suf,
      [Mod.mk "Foo" none none none none none none none none,
        Mod.mk "foo" none none none none none none none none] =
        pre ++ Mod.mk "Foo" none none none none none none none none :: suf ∧
      ∀ x ∈ pre, strLower x.name ≠ strLower "FOO" :=
  (find_mod_case_insensitive_first_match
    [Mod.mk "Foo" none none none none none none none none,
      Mod.mk "foo" none none none none none none none none] "FOO").1
    (Mod.mk "Foo" none none none none none none none none) (by decide)

/-! Claim C3. -/

/-- C3: a glob candidate survives archive asset discovery exactly when its
manifest loads as present with a name equal to the module name; with zero
survivors discovery fails with the missing-asset error, and with two or more
survivors it fails with the ambiguous-asset error listing the base names of
all survivors. -/
theorem archive_asset_discovery_errors (modname : String)
    (cands : List ZipCandidate) :
    (∀ c, zip_candidate_valid modname c = true ↔
      ∃ o, load_info_json c.path c.node = .ok (some o) ∧ o.name = some modname) ∧
    (cands.filter (zip_candidate_valid modname) = [] →
      find_mod_zip_asset modname cands = .missingAsset modname) ∧
    (2 ≤ (cands.filter (zip_candidate_valid modname)).length →
      find_mod_zip_asset modname cands =
        .ambiguousAsset modname
          ((cands.filter (zip_candidate_valid modname)).map
            (fun c => basename c.path))) := by
  refine ⟨?_, ?_, ?_⟩
  · intro c
    cases h : load_info_json c.path c.node with
    | err e => simp [zip_candidate_valid, h]
    | ok info => cases info <;> simp [zip_candidate_valid, validate_mod, h]
  · intro h
    simp [find_mod_zip_asset, h]
  · intro h
    have h0 : ¬(cands.filter (zip_candidate_valid modname)).length = 0 := by omega
    have h1 : (cands.filter (zip_candidate_valid modname)).length > 1 := by omega
    simp [find_mod_zip_asset, h0, h1]

/-- C3 witness: two archive files both validly named for the same module
with matching manifests make discovery fail with the ambiguous error naming
both files. -/
theorem archive_asset_discovery_errors_inst :
    find_mod_zip_asset "Foo"
      [⟨"src/Foo_1.0.0.zip", .zipfile [("Foo_1.0.0/info.json", .value (.obj ⟨some "Foo", some "1.0.0"⟩))]⟩,
       ⟨"src/Foo_1.0.1.zip", .zipfile [("Foo_1.0.1/info.json", .value (.obj ⟨some "Foo", some "1.0.1"⟩))]⟩] =
      .ambiguousAsset "Foo"
        (([(⟨"src/Foo_1.0.0.zip", .zipfile [("Foo_1.0.0/info.json", .value (.obj ⟨some "Foo", some "1.0.0"⟩))]⟩ : ZipCandidate),
           ⟨"src/Foo_1.0.1.zip", .zipfile [("Foo_1.0.1/info.json", .value (.obj ⟨some "Foo", some "1.0.1"⟩))]⟩].filter
          (zip_candidate_valid "Foo")).map (fun c => basename c.path)) :=
  (archive_asset_discovery_errors "Foo"
    [⟨"src/Foo_1.0.0.zip", .zipfile [("Foo_1.0.0/info.json", .value (.obj ⟨some "Foo", some "1.0.0"⟩))]⟩,
     ⟨"src/Foo_1.0.1.zip", .zipfile [("Foo_1.0.1/info.json", .value (.obj ⟨some "Foo", some "1.0.1"⟩))]⟩]).2.2
    (by decide)

/-! Claim C1. -/

theorem replaceDots_no_sep {v : String} (hv : '/' ∉ v.data) :
    '/' ∉ (replaceDots v).data := by
  simp only [replaceDots, List.mem_map]
  rintro ⟨c, hc, hce⟩
  by_cases hdot : c = '.'
  · simp [hdot] at hce
  · rw [if_neg hdot] at hce
    exact hv (hce ▸ hc)

theorem folder_not_abs {name ver : String} (hn : '/' ∉ name.data) :
    isabs (name ++ "_" ++ replaceDots ver) = false := by
  unfold isabs
  rw [str_data_append, str_data_append]
  have h2 : ("_" : String).data = ['_'] := rfl
  rw [h2]
  cases h : name.data with
  | nil => simp [h]
  | cons c t =>
    have hc : c ≠ '/' := fun hce => hn (by rw [h, hce]; exact List.mem_cons_self _ _)
    simp [h, hc]

theorem basename_no_sep {t : String} (ht : '/' ∉ t.data) : basename t = t := by
  have hall : ∀ x ∈ t.data.reverse, (decide (x ≠ '/')) = true := by
    intro x hx
    exact decide_eq_true (fun he => ht (he ▸ List.mem_reverse.mp hx))
  unfold basename
  rw [takeWhile_all_eq t.data.reverse hall, List.reverse_reverse, string_mk_data]

theorem basename_append_no_sep {s t : String} (hs : endsWithSep s = true)
    (ht : '/' ∉ t.data) : basename (s ++ t) = t := by
  unfold endsWithSep at hs
  have hs' : s.data.reverse.head? = some '/' := by simpa using hs
  have hall : ∀ x ∈ t.data.reverse, (decide (x ≠ '/')) = true := by
    intro x hx
    exact decide_eq_true (fun he => ht (he ▸ List.mem_reverse.mp hx))
  cases hrev : s.data.reverse with
  | nil => rw [hrev] at hs'; cases hs'
  | cons c rs =>
    have hc : c = '/' := by rw [hrev] at hs'; exact Option.some.inj hs'
    unfold basename
    rw [str_data_append, List.reverse_append, hrev, hc,
      takeWhile_append_stop t.data.reverse '/' rs hall (by decide),
      List.reverse_reverse, string_mk_data]

theorem str_append_assoc (a b c : String) : a ++ b ++ c = a ++ (b ++ c) :=
  str_ext (by rw [str_data_append, str_data_append, str_data_append, str_data_append,
    List.append_assoc])

theorem empty_str_append (b : String) : "" ++ b = b :=
  str_ext (by rw [str_data_append]; rfl)

theorem endsWithSep_append_slash (s : String) : endsWithSep (s ++ "/") = true := by
  unfold endsWithSep
  rw [str_data_append]
  have h1 : ("/" : String).data = ['/'] := rfl
  rw [h1, List.reverse_append]
  simp

theorem basename_pjoin_no_sep (a b : String) (hb : '/' ∉ b.data)
    (hbabs : isabs b = false) (t : String) (ht : '/' ∉ t.data) :
    basename (pjoin a b ++ t) = b ++ t := by
  have hbt : '/' ∉ (b ++ t).data := by
    rw [str_data_append]
    intro h
    rcases List.mem_append.mp h with h1 | h2
    · exact hb h1
    · exact ht h2
  unfold pjoin
  simp only [hbabs, Bool.false_eq_true, if_false]
  by_cases hc : (a.data.isEmpty || endsWithSep a) = true
  · rw [if_pos hc]
    rcases Bool.or_eq_true_iff.mp hc with he | hsep
    · have ha : a = "" := string_of_data_nil (by simpa using he)
      rw [ha, empty_str_append]
      exact basename_no_sep hbt
    · rw [str_append_assoc]
      exact basename_append_no_sep hsep hbt
  · rw [if_neg hc, str_append_assoc (a ++ "/") b t]
    exact basename_append_no_sep (endsWithSep_append_slash a) hbt

/-- C1 counterexample: at version 1.2.3 the produced archive base name is
not the bundle name, underscore, version verbatim, extension (the zip_name
local computed at line 323 and never used); the actual file name has the
dots of the version replaced by underscores. -/
theorem bundle_zip_name_not_verbatim_version :
    basename (build_release_zip_path "out" "FactorioAccess" "1.2.3") ≠
      build_release_zip_zip_name "FactorioAccess" "1.2.3" ∧
    basename (build_release_zip_path "out" "FactorioAccess" "1.2.3") =
      "FactorioAccess_1_2_3.zip" := by
  decide

/-- C1 amended: for every bundle assembly invocation, the produced archive
file is named with the bundle name, an underscore, the version with every
dot replaced by an underscore, and the zip extension, deterministically
derived from bundle name and version (assuming neither contains a path
separator). -/
theorem bundle_zip_name_underscored_version (dest name ver : String)
    (hn : '/' ∉ name.data) (hv : '/' ∉ ver.data) :
    basename (build_release_zip_path dest name ver) =
      name ++ "_" ++ replaceDots ver ++ ".zip" := by
  have hus : '/' ∉ ("_" : String).data := by decide
  have hF : '/' ∉ (name ++ "_" ++ replaceDots ver).data := by
    rw [str_data_append, str_data_append]
    intro h
    rcases List.mem_append.mp h with h1 | h2
    · rcases List.mem_append.mp h1 with ha | hb
      · exact hn ha
      · exact hus hb
    · exact replaceDots_no_sep hv h2
  exact basename_pjoin_no_sep dest (name ++ "_" ++ replaceDots ver) hF
    (folder_not_abs hn) ".zip" (by decide)

/-- C1 witness: the amended naming at a concrete invocation. -/
theorem bundle_zip_name_underscored_version_inst :
    basename (build_release_zip_path "out" "FactorioAccess" "1.2.3") =
      "FactorioAccess" ++ "_" ++ replaceDots "1.2.3" ++ ".zip" :=
  bundle_zip_name_underscored_version "out" "FactorioAccess" "1.2.3" (by decide)
    (by decide)

end FAReleaseTool
